import Mathlib

/-!
Shallow embedding of the `tracklists` scraper (src/index.ts) and proofs
about its specification.  The data model (`Show`/`Credit`, `Episode`,
`Track`), the fingerprint used for deduplication (`JSON.stringify` of a
track record), the pagination loop of `NTSScraperService.fetchAllEpisodes`,
the per-show pipeline `ShowProcessor.processShow` / `saveTracklist` and the
driver loop of `main` are translated into pure Lean functions; network and
the file system are passed in explicitly as oracles / state.
-/

namespace Tracklists

/-- `{rel, href}` entry of `Episode.links` (src/index.ts:13). -/
structure Link where
  rel : String
  href : String
deriving DecidableEq

/-- `Episode` interface (src/index.ts:11-14). -/
structure Episode where
  name : String
  links : List Link
deriving DecidableEq

/-- `Track` interface (src/index.ts:16-19). -/
structure Track where
  artist : String
  title : String
deriving DecidableEq

/-- `Show` interface (src/index.ts:6-9); also the shape of a catalog
`credit` entry consumed by `main`. -/
structure NShow where
  name : String
  path : String
deriving DecidableEq

/-! ## The fingerprint: `JSON.stringify(track)` (src/index.ts:83,116)

`JSON.stringify` of a `{artist, title}` record with string fields produces
`{"artist":"…","title":"…"}` where each field value is escaped: `"` and `\`
get a backslash, the control characters U+0000–U+001F are written `\b`,
`\t`, `\n`, `\f`, `\r` or `\u00XX` (lowercase hex), and every other
character is copied verbatim. -/

/-- Lowercase hex digit for `n < 16`, as used by `JSON.stringify`'s
`\u00XX` escapes. -/
def hexDig (n : Nat) : Char :=
  if n < 10 then Char.ofNat (48 + n) else Char.ofNat (87 + n)

/-- JSON string escaping of one character, as performed by
`JSON.stringify` on string values. -/
def escChar (c : Char) : List Char :=
  if c = '"' then ['\\', '"']
  else if c = '\\' then ['\\', '\\']
  else if c = '\x08' then ['\\', 'b']
  else if c = '\x09' then ['\\', 't']
  else if c = '\x0a' then ['\\', 'n']
  else if c = '\x0c' then ['\\', 'f']
  else if c = '\x0d' then ['\\', 'r']
  else if c.toNat < 32 then
    ['\\', 'u', '0', '0', hexDig (c.toNat / 16), hexDig (c.toNat % 16)]
  else [c]

/-- JSON string escaping of a whole string value. -/
def escStr (s : String) : List Char :=
  (s.data.map escChar).flatten

/-- The characters `{"artist":"` opening the serialized record. -/
def fpOpen : List Char :=
  ['\x7b', '"', 'a', 'r', 't', 'i', 's', 't', '"', ':', '"']

/-- The characters `","title":"` between the two serialized fields. -/
def fpMid : List Char :=
  ['"', ',', '"', 't', 'i', 't', 'l', 'e', '"', ':', '"']

/-- Character list of `JSON.stringify({artist, title})`. -/
def fpChars (t : Track) : List Char :=
  fpOpen ++ escStr t.artist ++ fpMid ++ escStr t.title ++ ['"', '\x7d']

/-- The deduplication key of a track: `JSON.stringify(track)`
(src/index.ts:83,116). -/
def fingerprint (t : Track) : String :=
  String.mk (fpChars t)

/-- Value of a lowercase hexadecimal digit character. -/
def hexVal (c : Char) : Option Nat :=
  if 48 ≤ c.toNat ∧ c.toNat ≤ 57 then some (c.toNat - 48)
  else if 97 ≤ c.toNat ∧ c.toNat ≤ 102 then some (c.toNat - 87)
  else none

/-- Parse a JSON-escaped string body up to (and consuming) its closing
quote; returns the decoded characters and the rest of the input.  This is
the inverse used to show `fingerprint` is injective and to model
`JSON.parse` on `JSON.stringify` output (src/index.ts:88,119). -/
def parseJsonStr : List Char → Option (List Char × List Char)
  | [] => none
  | c :: rest =>
    if c = '"' then some ([], rest)
    else if c = '\\' then
      match rest with
      | [] => none
      | e :: r =>
        if e = '"' then (fun p => ('"' :: p.1, p.2)) <$> parseJsonStr r
        else if e = '\\' then (fun p => ('\\' :: p.1, p.2)) <$> parseJsonStr r
        else if e = 'b' then (fun p => ('\x08' :: p.1, p.2)) <$> parseJsonStr r
        else if e = 't' then (fun p => ('\x09' :: p.1, p.2)) <$> parseJsonStr r
        else if e = 'n' then (fun p => ('\x0a' :: p.1, p.2)) <$> parseJsonStr r
        else if e = 'f' then (fun p => ('\x0c' :: p.1, p.2)) <$> parseJsonStr r
        else if e = 'r' then (fun p => ('\x0d' :: p.1, p.2)) <$> parseJsonStr r
        else if e = 'u' then
          match r with
          | z1 :: z2 :: d1 :: d2 :: r2 =>
            if z1 = '0' ∧ z2 = '0' then
              match hexVal d1, hexVal d2 with
              | some hi, some lo =>
                (fun p => (Char.ofNat (16 * hi + lo) :: p.1, p.2)) <$> parseJsonStr r2
              | _, _ => none
            else none
          | _ => none
        else none
    else (fun p => (c :: p.1, p.2)) <$> parseJsonStr rest

/-- Consume an expected literal character sequence from the front of the
input; `none` when the input does not start with it. -/
def dropLit : List Char → List Char → Option (List Char)
  | [], l => some l
  | _ :: _, [] => none
  | p :: ps, c :: cs => if c = p then dropLit ps cs else none

/-- Parse the exact shape produced by `fingerprint`: returns the decoded
artist and title character lists. -/
def parseFp (l : List Char) : Option (List Char × List Char) :=
  match dropLit fpOpen l with
  | none => none
  | some r1 =>
    match parseJsonStr r1 with
    | none => none
    | some (a, r2) =>
      match dropLit fpMid.tail r2 with
      | none => none
      | some r3 =>
        match parseJsonStr r3 with
        | some (t, ['\x7d']) => some (a, t)
        | _ => none

/-- `JSON.parse` specialised to strings produced by `fingerprint`. -/
def parseTrackStr (s : String) : Option Track :=
  (parseFp s.data).map fun p => ⟨String.mk p.1, String.mk p.2⟩

theorem hexVal_hexDig : ∀ n < 16, hexVal (hexDig n) = some n := by decide

theorem parseJsonStr_escape (l rest : List Char) :
    parseJsonStr ((l.map escChar).flatten ++ '"' :: rest) = some (l, rest) := by
  induction l with
  | nil => rw [parseJsonStr.eq_def]; simp
  | cons c l ih =>
    by_cases h1 : c = '"'
    · subst h1; simp only [escChar, List.map_cons, List.flatten_cons, if_pos rfl,
        List.cons_append, List.nil_append]
      rw [parseJsonStr.eq_def]; simp [ih]
    · by_cases h2 : c = '\\'
      · subst h2
        simp only [escChar, List.map_cons, List.flatten_cons, List.cons_append,
          List.nil_append, if_neg (by decide : ¬('\\' : Char) = '"'), if_pos rfl]
        rw [parseJsonStr.eq_def]; simp [ih]
      · by_cases h3 : c = '\x08'
        · subst h3
          simp only [escChar, List.map_cons, List.flatten_cons, List.cons_append,
            List.nil_append, if_neg (by decide : ¬('\x08' : Char) = '"'),
            if_neg (by decide : ¬('\x08' : Char) = '\\'), if_pos rfl]
          rw [parseJsonStr.eq_def]; simp [ih]
        · by_cases h4 : c = '\x09'
          · subst h4
            simp only [escChar, List.map_cons, List.flatten_cons, List.cons_append,
              List.nil_append, if_neg (by decide : ¬('\x09' : Char) = '"'),
              if_neg (by decide : ¬('\x09' : Char) = '\\'),
              if_neg (by decide : ¬('\x09' : Char) = '\x08'), if_pos rfl]
            rw [parseJsonStr.eq_def]; simp [ih]
          · by_cases h5 : c = '\x0a'
            · subst h5
              simp only [escChar, List.map_cons, List.flatten_cons, List.cons_append,
                List.nil_append, if_neg (by decide : ¬('\x0a' : Char) = '"'),
                if_neg (by decide : ¬('\x0a' : Char) = '\\'),
                if_neg (by decide : ¬('\x0a' : Char) = '\x08'),
                if_neg (by decide : ¬('\x0a' : Char) = '\x09'), if_pos rfl]
              rw [parseJsonStr.eq_def]; simp [ih]
            · by_cases h6 : c = '\x0c'
              · subst h6
                simp only [escChar, List.map_cons, List.flatten_cons, List.cons_append,
                  List.nil_append, if_neg (by decide : ¬('\x0c' : Char) = '"'),
                  if_neg (by decide : ¬('\x0c' : Char) = '\\'),
                  if_neg (by decide : ¬('\x0c' : Char) = '\x08'),
                  if_neg (by decide : ¬('\x0c' : Char) = '\x09'),
                  if_neg (by decide : ¬('\x0c' : Char) = '\x0a'), if_pos rfl]
                rw [parseJsonStr.eq_def]; simp [ih]
              · by_cases h7 : c = '\x0d'
                · subst h7
                  simp only [escChar, List.map_cons, List.flatten_cons, List.cons_append,
                    List.nil_append, if_neg (by decide : ¬('\x0d' : Char) = '"'),
                    if_neg (by decide : ¬('\x0d' : Char) = '\\'),
                    if_neg (by decide : ¬('\x0d' : Char) = '\x08'),
                    if_neg (by decide : ¬('\x0d' : Char) = '\x09'),
                    if_neg (by decide : ¬('\x0d' : Char) = '\x0a'),
                    if_neg (by decide : ¬('\x0d' : Char) = '\x0c'), if_pos rfl]
                  rw [parseJsonStr.eq_def]; simp [ih]
                · by_cases h8 : c.toNat < 32
                  · have hhi : hexVal (hexDig (c.toNat / 16)) = some (c.toNat / 16) :=
                      hexVal_hexDig _ (by omega)
                    have hlo : hexVal (hexDig (c.toNat % 16)) = some (c.toNat % 16) :=
                      hexVal_hexDig _ (Nat.mod_lt _ (by omega))
                    have hc : Char.ofNat (16 * (c.toNat / 16) + c.toNat % 16) = c := by
                      rw [Nat.div_add_mod]; exact Char.ofNat_toNat c
                    simp only [escChar, List.map_cons, List.flatten_cons,
                      List.cons_append, List.nil_append, if_neg h1, if_neg h2,
                      if_neg h3, if_neg h4, if_neg h5, if_neg h6, if_neg h7,
                      if_pos h8]
                    rw [parseJsonStr.eq_def]
                    simp [hhi, hlo, hc, ih]
                  · simp only [escChar, List.map_cons, List.flatten_cons,
                      List.cons_append, List.nil_append, if_neg h1, if_neg h2,
                      if_neg h3, if_neg h4, if_neg h5, if_neg h6, if_neg h7,
                      if_neg h8]
                    rw [parseJsonStr.eq_def]
                    simp [h1, h2, ih]

theorem dropLit_append (lit rest : List Char) : dropLit lit (lit ++ rest) = some rest := by
  induction lit with
  | nil => simp [dropLit]
  | cons p ps ih => simp [dropLit, ih]

theorem parseFp_fpChars (t : Track) :
    parseFp (fpChars t) = some (t.artist.data, t.title.data) := by
  have h1 : fpChars t =
      fpOpen ++ ((t.artist.data.map escChar).flatten ++ '"' ::
        (fpMid.tail ++ ((t.title.data.map escChar).flatten ++ '"' :: ['\x7d']))) := by
    simp [fpChars, fpOpen, fpMid, escStr]
  rw [h1]
  simp [parseFp, dropLit_append, parseJsonStr_escape]

/-- `JSON.parse ∘ JSON.stringify` is the identity on tracks. -/
theorem parseTrackStr_fingerprint (t : Track) :
    parseTrackStr (fingerprint t) = some t := by
  simp [parseTrackStr, fingerprint, parseFp_fpChars]

/-- The fingerprint is injective: equal serializations force equal tracks. -/
theorem fingerprint_injective {a b : Track} (h : fingerprint a = fingerprint b) :
    a = b := by
  have := parseTrackStr_fingerprint a
  rw [h, parseTrackStr_fingerprint b] at this
  exact (Option.some.injEq _ _ ▸ this.symm)

/-! ## Deduplication via `Set<string>` (src/index.ts:75,83,88,116-119)

A JavaScript `Set` iterates in insertion order and ignores re-insertions;
it is modelled as a duplicate-free list grown at the back. -/

/-- `set.add(x)` on a JS `Set` represented as an insertion-ordered list. -/
def setAdd (s : List String) (x : String) : List String :=
  if x ∈ s then s else s ++ [x]

/-- `tracklist.forEach(track => allTracks.add(JSON.stringify(track)))`
(src/index.ts:82-84); also the `Set` constructor from an array of
serialized tracks (src/index.ts:116). -/
def addTracks (acc : List String) (tl : List Track) : List String :=
  tl.foldl (fun s t => setAdd s (fingerprint t)) acc

/-- `Array.from(allTracks).map(track => JSON.parse(track))`
(src/index.ts:88,119). -/
def tracksOfFps (s : List String) : List Track :=
  s.filterMap parseTrackStr

/-! ## NTSScraperService (src/index.ts:21-61) -/

/-- `NTSScraperService.baseUrl` (src/index.ts:22). -/
def baseUrl : String := "https://www.nts.live/api/v2"

/-- `show.path.includes('/guests/')` (src/index.ts:73). -/
def isGuestShow (p : String) : Bool := decide ("/guests/".data <:+: p.data)

/-- The episodes page URL `${baseUrl}${showPath}/episodes?offset=…&limit=…`
(src/index.ts:37). -/
def episodesUrl (base showPath : String) (offset limit : Nat) : String :=
  base ++ showPath ++ "/episodes?offset=" ++ toString offset ++ "&limit=" ++ toString limit

/-- The guest-show tracklist URL `${baseUrl}${showPath}/tracklist`
(src/index.ts:28). -/
def tracklistUrlOf (base showPath : String) : String :=
  base ++ showPath ++ "/tracklist"

/-- The synthetic episode returned for a guest show (src/index.ts:28). -/
def syntheticEpisode (base showPath : String) : Episode :=
  ⟨"", [⟨"tracklist", tracklistUrlOf base showPath⟩]⟩

/-- The `while (true)` pagination loop of `fetchAllEpisodes`
(src/index.ts:31-48).  The network is an oracle from URL to response;
`fuel` bounds the number of iterations we are willing to unfold, `none`
meaning the loop did not terminate within `fuel` requests.  Alongside the
accumulated episodes the list of requested URLs is returned. -/
def fetchLoop (netEps : String → Except String (List Episode)) (base showPath : String) :
    Nat → Nat → List Episode → List String → Option (Except String (List Episode × List String))
  | 0, _, _, _ => none
  | fuel + 1, offset, acc, urls =>
    let url := episodesUrl base showPath offset 12
    match netEps url with
    | .error e => some (.error e)
    | .ok episodes =>
      if episodes.length = 0 then some (.ok (acc, urls ++ [url]))
      else fetchLoop netEps base showPath fuel (offset + 12) (acc ++ episodes) (urls ++ [url])

/-- `NTSScraperService.fetchAllEpisodes` (src/index.ts:25-51). -/
def fetchAllEpisodes (netEps : String → Except String (List Episode)) (fuel : Nat)
    (base showPath : String) (isGuest : Bool) :
    Option (Except String (List Episode × List String)) :=
  if isGuest then some (.ok ([syntheticEpisode base showPath], []))
  else fetchLoop netEps base showPath fuel 0 [] []

/-! ## ShowProcessor (src/index.ts:63-123) -/

/-- `episode.links.find(link => link.rel === 'tracklist')?.href`
(src/index.ts:79). -/
def trackUrl (ep : Episode) : Option String :=
  (ep.links.find? (fun l => l.rel == "tracklist")).map Link.href

/-- The per-episode loop of `processShow` (src/index.ts:77-86): episodes
without a tracklist link are skipped, otherwise the tracklist is fetched
(`fetchTracklist`, one request per call, src/index.ts:53-60) and its
tracks added to the fingerprint set.  Errors short-circuit, to be caught
by `processShow`'s `catch`. -/
def accumulateTracks (netTl : String → Except String (List Track)) :
    List Episode → List String → List String → Except String (List String × List String)
  | [], acc, urls => .ok (acc, urls)
  | ep :: rest, acc, urls =>
    match trackUrl ep with
    | none => accumulateTracks netTl rest acc urls
    | some url =>
      match netTl url with
      | .error e => .error e
      | .ok tl => accumulateTracks netTl rest (addTracks acc tl) (urls ++ [url])

/-- The character class of JavaScript's regex `\\s`: tab, line feed,
vertical tab, form feed, carriage return, space, no-break space, ogham
space mark, the en quad to hair space range, line and paragraph
separators, narrow no-break space, medium mathematical space, ideographic
space and the byte-order mark. -/
def jsWs (c : Char) : Bool :=
  c.toNat = 0x09 || c.toNat = 0x0A || c.toNat = 0x0B || c.toNat = 0x0C ||
  c.toNat = 0x0D || c.toNat = 0x20 || c.toNat = 0xA0 || c.toNat = 0x1680 ||
  (0x2000 ≤ c.toNat && c.toNat ≤ 0x200A) ||
  c.toNat = 0x2028 || c.toNat = 0x2029 || c.toNat = 0x202F || c.toNat = 0x205F ||
  c.toNat = 0x3000 || c.toNat = 0xFEFF

/-- `.replace(/\s+/g, '_')` (src/index.ts:104): each maximal run of
whitespace becomes a single underscore.  The flag records whether the
previous character was whitespace, i.e. whether we are inside a run whose
underscore was already emitted. -/
def collapseWsAux (inRun : Bool) : List Char → List Char
  | [] => []
  | c :: rest =>
    if jsWs c then
      (if inRun then [] else ['_']) ++ collapseWsAux true rest
    else c :: collapseWsAux false rest

/-- `.replace(/\s+/g, '_')` applied to a whole string. -/
def collapseWs (l : List Char) : List Char := collapseWsAux false l

/-- Models `String.prototype.toLowerCase`; `Char.toLower` agrees with it
on the ASCII range covered by the catalog names. -/
def jsToLower (c : Char) : Char := c.toLower

/-- `showName.toLowerCase().replace(/\s+/g, '_').replace(/\//g, '_')`
(src/index.ts:104). -/
def sanitize (name : String) : String :=
  String.mk ((collapseWs (name.data.map jsToLower)).map fun c => if c = '/' then '_' else c)

/-- `${sanitizedShowName}_tracklist.json` (src/index.ts:105). -/
def outFileName (showName : String) : String := sanitize showName ++ "_tracklist.json"

/-- `path.join` on simple relative segments (src/index.ts:106,145). -/
def pathJoin (dir file : String) : String := dir ++ "/" ++ file

/-- The path of a show's output file (src/index.ts:104-106). -/
def outFilePath (outputDir showName : String) : String :=
  pathJoin outputDir (outFileName showName)

/-- The durable state threaded through the run: the output files (path ↦
parse result of the content: `some tracks` for a JSON track array, `none`
for unparseable content), the checkpoint map (set of show names marked
done), and the running total counter. -/
structure CrawlState where
  files : List (String × Option (List Track))
  checkpoint : List String
  runningTotal : Nat
deriving DecidableEq

/-- Look up a file; `none` when the file is absent. -/
def getFile (files : List (String × Option (List Track))) (p : String) :
    Option (Option (List Track)) :=
  (files.find? (fun kv => kv.1 == p)).map Prod.snd

/-- `fs.writeFile` of a track array (src/index.ts:120). -/
def putFile (files : List (String × Option (List Track))) (p : String) (ts : List Track) :
    List (String × Option (List Track)) :=
  (p, some ts) :: files

/-- The `existingTracks` read in `saveTracklist` (src/index.ts:108-114):
an absent or unparseable file yields the empty array. -/
def existingTracksOf (files : List (String × Option (List Track))) (p : String) : List Track :=
  match getFile files p with
  | some (some ts) => ts
  | _ => []

/-- `checkpoint[show.name] = true` (src/index.ts:96). -/
def insertName (cp : List String) (name : String) : List String :=
  if name ∈ cp then cp else cp ++ [name]

/-- The merged track array computed and written by
`ShowProcessor.saveTracklist` (src/index.ts:103-122). -/
def saveTracklist (files : List (String × Option (List Track))) (showName : String)
    (tracks : List Track) (outputDir : String) : List Track :=
  let existingTracks := existingTracksOf files (outFilePath outputDir showName)
  let allTracks := addTracks [] existingTracks
  let allTracks := addTracks allTracks tracks
  tracksOfFps allTracks

/-- `ShowProcessor.processShow` (src/index.ts:70-101).  Any error from the
fetch oracles or a failing output write is caught (`catch`,
src/index.ts:98-100) and leaves the state unchanged; `none` models the
pagination loop not terminating within `fuel`.  The second component is
the list of URLs requested on the successful path. -/
def processShowE (netEps : String → Except String (List Episode))
    (netTl : String → Except String (List Track)) (fuel : Nat) (writeOk : String → Bool)
    (st : CrawlState) (cr : NShow) (outputDir : String) : Option (CrawlState × List String) :=
  match fetchAllEpisodes netEps fuel baseUrl cr.path (isGuestShow cr.path) with
  | none => none
  | some (.error _) => some (st, [])
  | some (.ok (episodes, epUrls)) =>
    match accumulateTracks netTl episodes [] [] with
    | .error _ => some (st, [])
    | .ok (allTracks, tlUrls) =>
      let deduplicatedTracks := tracksOfFps allTracks
      let filePath := outFilePath outputDir cr.name
      if writeOk filePath then
        let merged := saveTracklist st.files cr.name deduplicatedTracks outputDir
        some ({ files := putFile st.files filePath merged,
                checkpoint := insertName st.checkpoint cr.name,
                runningTotal := st.runningTotal + deduplicatedTracks.length },
              epUrls ++ tlUrls)
      else some (st, [])

/-- One catalog mixtape: `{mixtape_alias, credits}` (src/index.ts:126,132,144-148). -/
structure Mixtape where
  mixtape_alias : String
  credits : List NShow
deriving DecidableEq

/-- `'nts_tracklists'` (src/index.ts:127). -/
def outputRoot : String := "nts_tracklists"

/-- The inner loop of `main` over one mixtape's credits
(src/index.ts:148-155): checkpointed shows are skipped, the others are
processed with the shared state. -/
def runCredits (netEps : String → Except String (List Episode))
    (netTl : String → Except String (List Track)) (fuel : Nat) (writeOk : String → Bool)
    (outputDir : String) : List NShow → CrawlState → Option (CrawlState × List String)
  | [], st => some (st, [])
  | cr :: rest, st =>
    if cr.name ∈ st.checkpoint then runCredits netEps netTl fuel writeOk outputDir rest st
    else
      match processShowE netEps netTl fuel writeOk st cr outputDir with
      | none => none
      | some (st2, urls) =>
        (runCredits netEps netTl fuel writeOk outputDir rest st2).map
          fun p => (p.1, urls ++ p.2)

/-- The outer loop of `main` over the catalog's mixtapes
(src/index.ts:144-156); each mixtape's credits are processed into the
folder `nts_tracklists/{mixtape_alias}`. -/
def runMain (netEps : String → Except String (List Episode))
    (netTl : String → Except String (List Track)) (fuel : Nat) (writeOk : String → Bool) :
    List Mixtape → CrawlState → Option (CrawlState × List String)
  | [], st => some (st, [])
  | m :: rest, st =>
    match runCredits netEps netTl fuel writeOk (pathJoin outputRoot m.mixtape_alias)
        m.credits st with
    | none => none
    | some (st2, urls) =>
      (runMain netEps netTl fuel writeOk rest st2).map fun p => (p.1, urls ++ p.2)

/-! ## Set lemmas -/

theorem mem_setAdd {s : List String} {x y : String} :
    y ∈ setAdd s x ↔ y ∈ s ∨ y = x := by
  unfold setAdd
  split
  · constructor
    · exact Or.inl
    · rintro (h | rfl)
      · exact h
      · assumption
  · simp

theorem nodup_setAdd {s : List String} {x : String} (h : s.Nodup) :
    (setAdd s x).Nodup := by
  unfold setAdd
  split
  · exact h
  · simpa [List.nodup_append] using ⟨h, by assumption⟩

theorem addTracks_cons (acc : List String) (t : Track) (ts : List Track) :
    addTracks acc (t :: ts) = addTracks (setAdd acc (fingerprint t)) ts := rfl

theorem mem_addTracks {tl : List Track} {acc : List String} {y : String} :
    y ∈ addTracks acc tl ↔ y ∈ acc ∨ ∃ t ∈ tl, y = fingerprint t := by
  induction tl generalizing acc with
  | nil => simp [addTracks]
  | cons t ts ih =>
    rw [addTracks_cons, ih]
    simp only [mem_setAdd, List.mem_cons]
    constructor
    · rintro ((h | rfl) | ⟨u, hu, rfl⟩)
      · exact Or.inl h
      · exact Or.inr ⟨t, Or.inl rfl, rfl⟩
      · exact Or.inr ⟨u, Or.inr hu, rfl⟩
    · rintro (h | ⟨u, (rfl | hu), rfl⟩)
      · exact Or.inl (Or.inl h)
      · exact Or.inl (Or.inr rfl)
      · exact Or.inr ⟨u, hu, rfl⟩

theorem nodup_addTracks {tl : List Track} {acc : List String} (h : acc.Nodup) :
    (addTracks acc tl).Nodup := by
  induction tl generalizing acc with
  | nil => exact h
  | cons t ts ih => exact ih (nodup_setAdd h)

theorem fpImage_addTracks {tl : List Track} {acc : List String}
    (h : ∀ x ∈ acc, ∃ u, x = fingerprint u) :
    ∀ x ∈ addTracks acc tl, ∃ u, x = fingerprint u := by
  intro x hx
  rcases mem_addTracks.1 hx with hx | ⟨u, _, rfl⟩
  · exact h x hx
  · exact ⟨u, rfl⟩

theorem mem_tracksOfFps {S : List String} (hS : ∀ s ∈ S, ∃ u, s = fingerprint u)
    {t : Track} : t ∈ tracksOfFps S ↔ fingerprint t ∈ S := by
  induction S with
  | nil => simp [tracksOfFps]
  | cons s S ih =>
    obtain ⟨u, rfl⟩ := hS s (List.mem_cons_self s S)
    have hS2 : ∀ x ∈ S, ∃ v, x = fingerprint v := fun x hx => hS x (List.mem_cons_of_mem _ hx)
    simp only [tracksOfFps, List.filterMap_cons, parseTrackStr_fingerprint]
    simp only [List.mem_cons]
    constructor
    · rintro (rfl | h)
      · exact Or.inl rfl
      · exact Or.inr ((ih hS2).1 h)
    · rintro (h | h)
      · exact Or.inl (fingerprint_injective h)
      · exact Or.inr ((ih hS2).2 h)

theorem nodup_tracksOfFps {S : List String} (hS : ∀ s ∈ S, ∃ u, s = fingerprint u)
    (h : S.Nodup) : (tracksOfFps S).Nodup := by
  induction S with
  | nil => simp [tracksOfFps]
  | cons s S ih =>
    obtain ⟨u, rfl⟩ := hS s (List.mem_cons_self s S)
    have hS2 : ∀ x ∈ S, ∃ v, x = fingerprint v := fun x hx => hS x (List.mem_cons_of_mem _ hx)
    simp only [tracksOfFps, List.filterMap_cons, parseTrackStr_fingerprint]
    rw [List.nodup_cons] at h ⊢
    refine ⟨fun hu => h.1 ?_, ih hS2 h.2⟩
    exact (mem_tracksOfFps hS2).1 hu

theorem length_tracksOfFps {S : List String} (hS : ∀ s ∈ S, ∃ u, s = fingerprint u) :
    (tracksOfFps S).length = S.length := by
  induction S with
  | nil => rfl
  | cons s S ih =>
    obtain ⟨u, rfl⟩ := hS s (List.mem_cons_self s S)
    have hS2 : ∀ x ∈ S, ∃ v, x = fingerprint v := fun x hx => hS x (List.mem_cons_of_mem _ hx)
    simp only [tracksOfFps, List.filterMap_cons, parseTrackStr_fingerprint, List.length_cons]
    exact congrArg Nat.succ (ih hS2)

/-! ## Claim C4: fingerprint equality -/

/-- C4: for all tracks `a` and `b`, `fingerprint a = fingerprint b` iff `a`
and `b` agree field-for-field on artist and title (exact string match, no
normalization); consequently `{"A","T"}` fetched in two episodes collapses
to a single entry of the deduplicated set, while `{"A","T"}` and
`{"A ","T"}` (trailing space) remain distinct entries. -/
theorem fingerprint_eq_iff_track_eq :
    (∀ a b : Track, fingerprint a = fingerprint b ↔ a = b) ∧
    tracksOfFps (addTracks (addTracks [] [⟨"A", "T"⟩]) [⟨"A", "T"⟩]) = [⟨"A", "T"⟩] ∧
    tracksOfFps (addTracks (addTracks [] [⟨"A", "T"⟩]) [⟨"A ", "T"⟩]) =
      [⟨"A", "T"⟩, ⟨"A ", "T"⟩] := by
  refine ⟨fun a b => ⟨fingerprint_injective, fun h => h ▸ rfl⟩, ?_, ?_⟩ <;> decide

/-! ## Claim C5: guest-show shortcut -/

/-- C5: for `isGuestShow = true`, `fetchAllEpisodes` makes zero requests
(the requested-URL list is empty) and returns exactly one synthetic
episode whose only link has rel `tracklist` and href
`{base}{showPath}/tracklist`. -/
theorem fetchAllEpisodes_guest_shortcut (netEps : String → Except String (List Episode))
    (fuel : Nat) (base showPath : String) :
    fetchAllEpisodes netEps fuel base showPath true =
      some (.ok ([⟨"", [⟨"tracklist", base ++ showPath ++ "/tracklist"⟩]⟩], [])) := by
  simp [fetchAllEpisodes, syntheticEpisode, tracklistUrlOf]

/-! ## Claim C9: the guest-show criterion -/

/-- C9: a show is classified as a guest show iff its path contains the
substring `/guests/`, and this boolean alone selects between the
synthetic-episode shortcut and the pagination loop in
`fetchAllEpisodes`. -/
theorem isGuestShow_sole_criterion :
    (∀ p : String, isGuestShow p = true ↔ "/guests/".data <:+: p.data) ∧
    (∀ (netEps : String → Except String (List Episode)) (fuel : Nat) (base p : String),
      isGuestShow p = true →
        fetchAllEpisodes netEps fuel base p (isGuestShow p) =
          some (.ok ([syntheticEpisode base p], []))) ∧
    (∀ (netEps : String → Except String (List Episode)) (fuel : Nat) (base p : String),
      isGuestShow p = false →
        fetchAllEpisodes netEps fuel base p (isGuestShow p) =
          fetchLoop netEps base p fuel 0 [] []) := by
  refine ⟨fun p => by simp [isGuestShow],
    fun nE fuel base p h => by simp [fetchAllEpisodes, h],
    fun nE fuel base p h => by simp [fetchAllEpisodes, h]⟩

/-- Witness for C9: one path containing `/guests/`, one not. -/
theorem isGuestShow_sole_criterion_witness :
    fetchAllEpisodes (fun _ => Except.error "e") 1 baseUrl "/guests/x"
        (isGuestShow "/guests/x") =
      some (.ok ([syntheticEpisode baseUrl "/guests/x"], [])) ∧
    fetchAllEpisodes (fun _ => Except.error "e") 1 baseUrl "/shows/x"
        (isGuestShow "/shows/x") =
      fetchLoop (fun _ => Except.error "e") baseUrl "/shows/x" 1 0 [] [] :=
  ⟨isGuestShow_sole_criterion.2.1 _ 1 baseUrl "/guests/x" (by decide),
   isGuestShow_sole_criterion.2.2 _ 1 baseUrl "/shows/x" (by decide)⟩

/-! ## Claim C1: merge-on-write -/

theorem existingTracksOf_putFile (files : List (String × Option (List Track)))
    (p : String) (v : List Track) : existingTracksOf (putFile files p v) p = v := by
  simp [existingTracksOf, getFile, putFile]

theorem mem_saveTracklist (files : List (String × Option (List Track)))
    (showName : String) (tracks : List Track) (outputDir : String) {t : Track} :
    t ∈ saveTracklist files showName tracks outputDir ↔
      t ∈ existingTracksOf files (outFilePath outputDir showName) ∨ t ∈ tracks := by
  unfold saveTracklist
  have himg : ∀ x ∈ addTracks (addTracks []
      (existingTracksOf files (outFilePath outputDir showName))) tracks,
      ∃ u, x = fingerprint u :=
    fpImage_addTracks (fpImage_addTracks (by simp))
  rw [mem_tracksOfFps himg]
  simp only [mem_addTracks, List.not_mem_nil, false_or]
  constructor
  · rintro ((⟨u, hu, he⟩) | ⟨u, hu, he⟩)
    · obtain rfl := fingerprint_injective he
      exact Or.inl hu
    · obtain rfl := fingerprint_injective he
      exact Or.inr hu
  · rintro (h | h)
    · exact Or.inl ⟨t, h, rfl⟩
    · exact Or.inr ⟨t, h, rfl⟩

/-- C1: the track array `saveTracklist` writes is the deduplicated union
(under `Track` field equality) of the tracks in the show's existing output
file — empty when the file is absent or unparseable — and the tracks
passed in from this run's fetch; and re-running the merge over its own
output (a second run against the same fixed upstream) yields a set-equal
file. -/
theorem saveTracklist_merge_spec (files : List (String × Option (List Track)))
    (showName : String) (tracks : List Track) (outputDir : String) :
    (∀ t, t ∈ saveTracklist files showName tracks outputDir ↔
      t ∈ existingTracksOf files (outFilePath outputDir showName) ∨ t ∈ tracks) ∧
    (saveTracklist files showName tracks outputDir).Nodup ∧
    (∀ t, t ∈ saveTracklist
        (putFile files (outFilePath outputDir showName)
          (saveTracklist files showName tracks outputDir))
        showName tracks outputDir ↔
      t ∈ saveTracklist files showName tracks outputDir) := by
  refine ⟨fun t => mem_saveTracklist files showName tracks outputDir, ?_, fun t => ?_⟩
  · unfold saveTracklist
    exact nodup_tracksOfFps
      (fpImage_addTracks (fpImage_addTracks (by simp)))
      (nodup_addTracks (nodup_addTracks List.nodup_nil))
  · rw [mem_saveTracklist, existingTracksOf_putFile, mem_saveTracklist]
    constructor
    · rintro (h | h)
      · exact h
      · exact Or.inr h
    · exact Or.inl

/-! ## Claim C2: pagination -/

/-- The URL of the `k`-th episodes page: offset `12 * k`, limit 12. -/
def pageUrl (base showPath : String) (k : Nat) : String :=
  episodesUrl base showPath (12 * k) 12

theorem range_map_shift {α : Type} (f : Nat → α) (k j : Nat) :
    (List.range (k + 1)).map (fun i => f (j + i)) =
      f j :: (List.range k).map (fun i => f ((j + 1) + i)) := by
  rw [List.range_succ_eq_map]
  simp only [List.map_cons, List.map_map, Nat.add_zero]
  refine congrArg (f j :: ·) (List.map_congr_left fun i _ => ?_)
  show f (j + (i + 1)) = f ((j + 1) + i)
  have h : j + (i + 1) = (j + 1) + i := by omega
  rw [h]

theorem fetchLoop_ok (netEps : String → Except String (List Episode))
    (base showPath : String) (pages : Nat → List Episode) (n : Nat)
    (hapi : ∀ k ≤ n, netEps (pageUrl base showPath k) = .ok (pages k))
    (hne : ∀ k < n, (pages k).length ≠ 0) (hempty : (pages n).length = 0) :
    ∀ fuel j acc urls, j ≤ n → n - j < fuel →
      fetchLoop netEps base showPath fuel (12 * j) acc urls =
        some (.ok (acc ++ ((List.range (n - j)).map fun i => pages (j + i)).flatten,
          urls ++ (List.range (n + 1 - j)).map fun i => pageUrl base showPath (j + i))) := by
  intro fuel
  induction fuel with
  | zero => intro j acc urls hj hf; omega
  | succ f ih =>
    intro j acc urls hj hf
    rw [fetchLoop]
    rw [show episodesUrl base showPath (12 * j) 12 = pageUrl base showPath j from rfl,
      hapi j hj]
    dsimp only
    by_cases hjn : j = n
    · subst hjn
      rw [if_pos hempty]
      have h1 : j - j = 0 := by omega
      have h2 : j + 1 - j = 1 := by omega
      rw [h1, h2]
      simp [List.range_succ]
    · have hjlt : j < n := lt_of_le_of_ne hj hjn
      rw [if_neg (hne j hjlt)]
      have hoff : 12 * j + 12 = 12 * (j + 1) := by ring
      rw [hoff, ih (j + 1) (acc ++ pages j) (urls ++ [pageUrl base showPath j])
        (by omega) (by omega)]
      have h3 : n - j = (n - (j + 1)) + 1 := by omega
      have h4 : n + 1 - j = (n + 1 - (j + 1)) + 1 := by omega
      rw [h3, h4, range_map_shift pages (n - (j + 1)) j,
        range_map_shift (pageUrl base showPath) (n + 1 - (j + 1)) j]
      simp [List.append_assoc]

theorem fetchLoop_no_early_exit (netEps : String → Except String (List Episode))
    (base showPath : String) (pages : Nat → List Episode) (n : Nat)
    (hapi : ∀ k ≤ n, netEps (pageUrl base showPath k) = .ok (pages k))
    (hne : ∀ k < n, (pages k).length ≠ 0) :
    ∀ fuel j acc urls, j + fuel ≤ n →
      fetchLoop netEps base showPath fuel (12 * j) acc urls = none := by
  intro fuel
  induction fuel with
  | zero => intro j acc urls hj; rfl
  | succ f ih =>
    intro j acc urls hj
    rw [fetchLoop]
    rw [show episodesUrl base showPath (12 * j) 12 = pageUrl base showPath j from rfl,
      hapi j (by omega)]
    dsimp only
    rw [if_neg (hne j (by omega))]
    have hoff : 12 * j + 12 = 12 * (j + 1) := by ring
    rw [hoff]
    exact ih (j + 1) _ _ (by omega)

/-- C2: for a non-guest show, `fetchAllEpisodes` requests the pages at
offsets `0, 12, 24, …` with fixed limit 12, appends the returned pages in
page order, and terminates exactly when a page comes back empty: with
pages `pages 0 … pages (n-1)` non-empty and `pages n` empty it returns the
concatenation of the first `n` pages having requested exactly the `n + 1`
URLs at offsets `12 * 0 … 12 * n`, and with at most `n` loop iterations
allowed it does not terminate at all. -/
theorem fetchAllEpisodes_pagination (netEps : String → Except String (List Episode))
    (base showPath : String) (pages : Nat → List Episode) (n : Nat)
    (hapi : ∀ k ≤ n, netEps (pageUrl base showPath k) = .ok (pages k))
    (hne : ∀ k < n, (pages k).length ≠ 0) (hempty : (pages n).length = 0) :
    (∀ fuel, n < fuel →
      fetchAllEpisodes netEps fuel base showPath false =
        some (.ok (((List.range n).map pages).flatten,
          (List.range (n + 1)).map (pageUrl base showPath)))) ∧
    (∀ fuel, fuel ≤ n →
      fetchAllEpisodes netEps fuel base showPath false = none) := by
  constructor
  · intro fuel hfuel
    have h := fetchLoop_ok netEps base showPath pages n hapi hne hempty fuel 0 [] []
      (Nat.zero_le n) (by omega)
    rw [show (12 : Nat) * 0 = 0 from rfl] at h
    simp only [fetchAllEpisodes, Bool.false_eq_true, if_false, Nat.sub_zero,
      Nat.zero_add, List.nil_append] at h ⊢
    exact h
  · intro fuel hfuel
    have h := fetchLoop_no_early_exit netEps base showPath pages n hapi hne fuel 0 [] []
      (by omega)
    rw [show (12 : Nat) * 0 = 0 from rfl] at h
    simp only [fetchAllEpisodes, Bool.false_eq_true, if_false]
    exact h

/-- A dummy episode for the mocked upstream of the C2 witness. -/
def mockEp : Episode := ⟨"e", []⟩

/-- Pages of the mocked upstream: 12 episodes at offsets 0 and 12, empty
from offset 24 on. -/
def mockPages (k : Nat) : List Episode :=
  if k < 2 then List.replicate 12 mockEp else []

/-- The mocked episodes endpoint for the C2 witness. -/
def mockNetEps : String → Except String (List Episode) := fun url =>
  if url = pageUrl baseUrl "/shows/mock" 0 then .ok (List.replicate 12 mockEp)
  else if url = pageUrl baseUrl "/shows/mock" 1 then .ok (List.replicate 12 mockEp)
  else .ok []

/-- Witness for C2: against the mocked upstream the fetch returns exactly
24 episodes after exactly 3 requests, and 2 loop iterations are not
enough to terminate. -/
theorem fetchAllEpisodes_pagination_witness :
    fetchAllEpisodes mockNetEps 3 baseUrl "/shows/mock" false =
      some (.ok (((List.range 2).map mockPages).flatten,
        (List.range 3).map (pageUrl baseUrl "/shows/mock"))) ∧
    (((List.range 2).map mockPages).flatten).length = 24 ∧
    ((List.range 3).map (pageUrl baseUrl "/shows/mock")).length = 3 ∧
    fetchAllEpisodes mockNetEps 2 baseUrl "/shows/mock" false = none := by
  have hapi : ∀ k ≤ 2, mockNetEps (pageUrl baseUrl "/shows/mock" k) = .ok (mockPages k) := by
    intro k hk
    interval_cases k <;> rfl
  have hne : ∀ k < 2, (mockPages k).length ≠ 0 := by decide
  have hempty : (mockPages 2).length = 0 := by decide
  refine ⟨(fetchAllEpisodes_pagination mockNetEps baseUrl "/shows/mock" mockPages 2
      hapi hne hempty).1 3 (by omega), by decide, by decide,
    (fetchAllEpisodes_pagination mockNetEps baseUrl "/shows/mock" mockPages 2
      hapi hne hempty).2 2 (by omega)⟩

/-! ## Claim C10: episodes without a tracklist link -/

/-- C10: an episode whose links carry no `tracklist` entry yields no
tracklist URL, so the per-episode loop issues no request for it and adds
no tracks: dropping the episode from the episode list leaves the
accumulation (both the fingerprint set and the requested URLs) unchanged,
and processing continues with the remaining episodes. -/
theorem episode_without_tracklist_skipped (netTl : String → Except String (List Track))
    (ep : Episode) (h : ∀ l ∈ ep.links, l.rel ≠ "tracklist") :
    trackUrl ep = none ∧
    ∀ pre post acc urls,
      accumulateTracks netTl (pre ++ ep :: post) acc urls =
        accumulateTracks netTl (pre ++ post) acc urls := by
  have hfind : ep.links.find? (fun l => l.rel == "tracklist") = none :=
    List.find?_eq_none.2 fun x hx => by simpa using h x hx
  have hurl : trackUrl ep = none := by simp [trackUrl, hfind]
  refine ⟨hurl, ?_⟩
  intro pre post acc urls
  induction pre generalizing acc urls with
  | nil => simp only [List.nil_append, accumulateTracks, hurl]
  | cons e pre ih =>
    simp only [List.cons_append, accumulateTracks]
    rcases htu : trackUrl e with _ | u
    · dsimp only
      exact ih acc urls
    · dsimp only
      rcases hnet : netTl u with e2 | tl
      · rfl
      · dsimp only
        exact ih _ _

/-- Witness for C10: a concrete episode with a single non-tracklist link
between two other episodes. -/
theorem episode_without_tracklist_skipped_witness :
    trackUrl ⟨"no-tl", [⟨"media", "u1"⟩]⟩ = none ∧
    accumulateTracks (fun _ => .ok []) ([⟨"a", []⟩] ++ (⟨"no-tl", [⟨"media", "u1"⟩]⟩ : Episode) :: [⟨"b", []⟩]) [] [] =
      accumulateTracks (fun _ => .ok []) ([⟨"a", []⟩] ++ [⟨"b", []⟩]) [] [] := by
  have h := episode_without_tracklist_skipped (fun _ => .ok [])
    ⟨"no-tl", [⟨"media", "u1"⟩]⟩ (by decide)
  exact ⟨h.1, h.2 [⟨"a", []⟩] [⟨"b", []⟩] [] []⟩

/-! ## State-machine lemmas for the driver loop -/

theorem mem_insertName {cp : List String} {x name : String} :
    x ∈ insertName cp name ↔ x ∈ cp ∨ x = name := by
  unfold insertName
  split
  · constructor
    · exact Or.inl
    · rintro (h | rfl)
      · exact h
      · assumption
  · simp

/-- The possible outcomes of one `processShow` call: non-termination of
the pagination loop, a caught exception leaving the state untouched, or
the successful update of files, checkpoint and running total. -/
theorem processShowE_cases (netEps : String → Except String (List Episode))
    (netTl : String → Except String (List Track)) (fuel : Nat) (writeOk : String → Bool)
    (st : CrawlState) (cr : NShow) (outputDir : String) :
    processShowE netEps netTl fuel writeOk st cr outputDir = none ∨
    processShowE netEps netTl fuel writeOk st cr outputDir = some (st, []) ∨
    ∃ eps epUrls S tlUrls,
      fetchAllEpisodes netEps fuel baseUrl cr.path (isGuestShow cr.path) =
        some (.ok (eps, epUrls)) ∧
      accumulateTracks netTl eps [] [] = .ok (S, tlUrls) ∧
      writeOk (outFilePath outputDir cr.name) = true ∧
      processShowE netEps netTl fuel writeOk st cr outputDir =
        some (CrawlState.mk
          (putFile st.files (outFilePath outputDir cr.name)
            (saveTracklist st.files cr.name (tracksOfFps S) outputDir))
          (insertName st.checkpoint cr.name)
          (st.runningTotal + (tracksOfFps S).length), epUrls ++ tlUrls) := by
  rcases h1 : fetchAllEpisodes netEps fuel baseUrl cr.path (isGuestShow cr.path)
    with _ | exc
  · left
    simp [processShowE, h1]
  · rcases exc with e | ⟨eps, epUrls⟩
    · right; left
      simp [processShowE, h1]
    · rcases h2 : accumulateTracks netTl eps [] [] with e | ⟨S, tlUrls⟩
      · right; left
        simp [processShowE, h1, h2]
      · by_cases h3 : writeOk (outFilePath outputDir cr.name) = true
        · right; right
          exact ⟨eps, epUrls, S, tlUrls, rfl, h2, h3, by simp [processShowE, h1, h2, h3]⟩
        · right; left
          simp only [Bool.not_eq_true] at h3
          simp [processShowE, h1, h2, h3]

/-- `processShow` never removes a show from the in-memory checkpoint. -/
theorem processShowE_checkpoint_mono {netEps : String → Except String (List Episode)}
    {netTl : String → Except String (List Track)} {fuel : Nat} {writeOk : String → Bool}
    {st : CrawlState} {cr : NShow} {outputDir : String} {st2 : CrawlState} {urls : List String}
    (hp : processShowE netEps netTl fuel writeOk st cr outputDir = some (st2, urls))
    {x : String} (hx : x ∈ st.checkpoint) : x ∈ st2.checkpoint := by
  rcases processShowE_cases netEps netTl fuel writeOk st cr outputDir with h | h | ⟨_, _, _, _, _, _, _, h⟩
  · rw [hp] at h
    cases h
  · rw [hp] at h
    obtain ⟨rfl, rfl⟩ := by simpa using h.symm
    exact hx
  · rw [hp] at h
    obtain ⟨rfl, rfl⟩ := by simpa using h.symm
    exact mem_insertName.2 (Or.inl hx)

/-! ## Claim C3: failure isolation -/

/-- The ways the `try` block of `processShow` can throw: the episode
fetch errors, some tracklist fetch errors, or the output-file write
fails.  (All are independent of the crawl state.) -/
def showFails (netEps : String → Except String (List Episode))
    (netTl : String → Except String (List Track)) (fuel : Nat) (writeOk : String → Bool)
    (cr : NShow) (outputDir : String) : Prop :=
  (∃ e, fetchAllEpisodes netEps fuel baseUrl cr.path (isGuestShow cr.path) =
    some (.error e)) ∨
  (∃ eps epUrls e,
    fetchAllEpisodes netEps fuel baseUrl cr.path (isGuestShow cr.path) =
      some (.ok (eps, epUrls)) ∧
    accumulateTracks netTl eps [] [] = .error e) ∨
  (∃ eps epUrls S tlUrls,
    fetchAllEpisodes netEps fuel baseUrl cr.path (isGuestShow cr.path) =
      some (.ok (eps, epUrls)) ∧
    accumulateTracks netTl eps [] [] = .ok (S, tlUrls) ∧
    writeOk (outFilePath outputDir cr.name) = false)

/-- C3: when a show's processing throws (episode fetch, tracklist fetch
or output write), the exception is caught inside `processShow`: the state
— files, checkpoint flag and running total — is left untouched, and the
driver loop over the catalog behaves exactly as if the failing show were
absent, so every subsequent show is still processed. -/
theorem processShow_failure_isolation (netEps : String → Except String (List Episode))
    (netTl : String → Except String (List Track)) (fuel : Nat) (writeOk : String → Bool)
    (cr : NShow) (outputDir : String)
    (h : showFails netEps netTl fuel writeOk cr outputDir) :
    (∀ st, processShowE netEps netTl fuel writeOk st cr outputDir = some (st, [])) ∧
    (∀ pre post st,
      runCredits netEps netTl fuel writeOk outputDir (pre ++ cr :: post) st =
        runCredits netEps netTl fuel writeOk outputDir (pre ++ post) st) ∧
    (∀ al pre post rest st, outputDir = pathJoin outputRoot al →
      runMain netEps netTl fuel writeOk (⟨al, pre ++ cr :: post⟩ :: rest) st =
        runMain netEps netTl fuel writeOk (⟨al, pre ++ post⟩ :: rest) st) := by
  have hps : ∀ st, processShowE netEps netTl fuel writeOk st cr outputDir = some (st, []) := by
    intro st
    rcases h with ⟨e, h1⟩ | ⟨eps, epUrls, e, h1, h2⟩ | ⟨eps, epUrls, S, tlUrls, h1, h2, h3⟩
    · simp [processShowE, h1]
    · simp [processShowE, h1, h2]
    · simp [processShowE, h1, h2, h3]
  have hrc : ∀ pre post st,
      runCredits netEps netTl fuel writeOk outputDir (pre ++ cr :: post) st =
        runCredits netEps netTl fuel writeOk outputDir (pre ++ post) st := by
    intro pre post
    induction pre with
    | nil =>
      intro st
      simp only [List.nil_append]
      by_cases hc : cr.name ∈ st.checkpoint
      · rw [runCredits, if_pos hc]
      · rw [runCredits, if_neg hc, hps st]
        dsimp only
        cases runCredits netEps netTl fuel writeOk outputDir post st with
        | none => rfl
        | some p => simp
    | cons c pre ih =>
      intro st
      simp only [List.cons_append]
      rw [runCredits, runCredits]
      by_cases hc : c.name ∈ st.checkpoint
      · rw [if_pos hc, if_pos hc]
        exact ih st
      · rw [if_neg hc, if_neg hc]
        cases hq : processShowE netEps netTl fuel writeOk st c outputDir with
        | none => rfl
        | some p =>
          dsimp only
          rw [ih p.1]
  refine ⟨hps, hrc, ?_⟩
  intro al pre post rest st hout
  subst hout
  rw [runMain, runMain, hrc pre post st]

/-- Witness for C3: a network that always fails, a non-guest show in the
middle of a three-show catalog. -/
theorem processShow_failure_isolation_witness :
    (processShowE (fun _ => .error "boom") (fun _ => .error "boom") 1 (fun _ => true)
      (CrawlState.mk [] [] 0) ⟨"x", "/shows/x"⟩ "nts_tracklists/m" =
        some (CrawlState.mk [] [] 0, [])) ∧
    (runCredits (fun _ => .error "boom") (fun _ => .error "boom") 1 (fun _ => true)
      "nts_tracklists/m" [⟨"a", "/guests/a"⟩, ⟨"x", "/shows/x"⟩, ⟨"b", "/guests/b"⟩]
      (CrawlState.mk [] [] 0) =
     runCredits (fun _ => .error "boom") (fun _ => .error "boom") 1 (fun _ => true)
      "nts_tracklists/m" [⟨"a", "/guests/a"⟩, ⟨"b", "/guests/b"⟩]
      (CrawlState.mk [] [] 0)) := by
  have h := processShow_failure_isolation (fun _ => .error "boom") (fun _ => .error "boom")
    1 (fun _ => true) ⟨"x", "/shows/x"⟩ "nts_tracklists/m" (Or.inl ⟨"boom", rfl⟩)
  exact ⟨h.1 (CrawlState.mk [] [] 0),
    h.2.1 [⟨"a", "/guests/a"⟩] [⟨"b", "/guests/b"⟩] (CrawlState.mk [] [] 0)⟩

/-! ## Claim C6: checkpoint skip -/

/-- C6: a show whose name is marked done in the checkpoint when the run
starts is skipped outright: the crawl over the catalog — state, files and
requested URLs alike — is identical to the crawl over the catalog with
that show removed, so no network call is made for it and its output file
is left untouched.  (The checkpoint only ever grows during a run, so being
checkpointed at the start means still being checkpointed when the show is
reached.) -/
theorem runCredits_checkpoint_skip (netEps : String → Except String (List Episode))
    (netTl : String → Except String (List Track)) (fuel : Nat) (writeOk : String → Bool)
    (outputDir : String) (cr : NShow) (pre post : List NShow) (st : CrawlState)
    (h : cr.name ∈ st.checkpoint) :
    runCredits netEps netTl fuel writeOk outputDir (pre ++ cr :: post) st =
      runCredits netEps netTl fuel writeOk outputDir (pre ++ post) st := by
  induction pre generalizing st with
  | nil =>
    simp only [List.nil_append]
    rw [runCredits, if_pos h]
  | cons c pre ih =>
    simp only [List.cons_append]
    rw [runCredits, runCredits]
    by_cases hc : c.name ∈ st.checkpoint
    · rw [if_pos hc, if_pos hc]
      exact ih st h
    · rw [if_neg hc, if_neg hc]
      cases hq : processShowE netEps netTl fuel writeOk st c outputDir with
      | none => rfl
      | some p =>
        dsimp only
        rw [ih p.1 (processShowE_checkpoint_mono hq h)]

/-- Witness for C6: a checkpoint already containing show `x`. -/
theorem runCredits_checkpoint_skip_witness :
    runCredits (fun _ => .error "net") (fun _ => .error "net") 1 (fun _ => true)
      "nts_tracklists/m" [⟨"a", "/guests/a"⟩, ⟨"x", "/shows/x"⟩] (CrawlState.mk [] ["x"] 0) =
    runCredits (fun _ => .error "net") (fun _ => .error "net") 1 (fun _ => true)
      "nts_tracklists/m" [⟨"a", "/guests/a"⟩] (CrawlState.mk [] ["x"] 0) :=
  runCredits_checkpoint_skip (fun _ => .error "net") (fun _ => .error "net") 1 (fun _ => true)
    "nts_tracklists/m" ⟨"x", "/shows/x"⟩ [⟨"a", "/guests/a"⟩] [] (CrawlState.mk [] ["x"] 0)
    (by decide)

/-! ## Claim C7: the running-total increment -/

/-- C7 (amended): on a successful show, the running total is incremented
by the length of this run's deduplicated fetched track list — which is
what reaches `saveTracklist` — while the file receives the merge of that
list with the existing file content; the two counts coincide only when
the existing file adds no new tracks. -/
theorem processShow_running_total (netEps : String → Except String (List Episode))
    (netTl : String → Except String (List Track)) (fuel : Nat) (writeOk : String → Bool)
    (st : CrawlState) (cr : NShow) (outputDir : String) (eps : List Episode)
    (epUrls : List String) (S tlUrls : List String)
    (hfe : fetchAllEpisodes netEps fuel baseUrl cr.path (isGuestShow cr.path) =
      some (.ok (eps, epUrls)))
    (hacc : accumulateTracks netTl eps [] [] = .ok (S, tlUrls))
    (hw : writeOk (outFilePath outputDir cr.name) = true) :
    (processShowE netEps netTl fuel writeOk st cr outputDir).map
        (fun p => (p.1.runningTotal, p.1.checkpoint,
          getFile p.1.files (outFilePath outputDir cr.name), p.2)) =
      some (st.runningTotal + (tracksOfFps S).length,
        insertName st.checkpoint cr.name,
        some (some (saveTracklist st.files cr.name (tracksOfFps S) outputDir)),
        epUrls ++ tlUrls) := by
  simp [processShowE, hfe, hacc, hw, getFile, putFile]

/-- The network for the C7 instance: the single (guest) tracklist request
returns one track `{A, T}`. -/
def c7NetTl : String → Except String (List Track) := fun _ => .ok [⟨"A", "T"⟩]

/-- The starting state for the C7 instance: the show's output file already
exists and holds the unrelated track `{B, S}`. -/
def c7St : CrawlState :=
  CrawlState.mk [(outFilePath "nts_tracklists/m" "x", some [⟨"B", "S"⟩])] [] 0

/-- Witness for C7 (amended), at the concrete instance: the increment is
the within-run deduplicated count (1), and the file gets the 2-track
merge. -/
theorem processShow_running_total_witness :
    (processShowE (fun _ => .ok []) c7NetTl 1 (fun _ => true) c7St ⟨"x", "/guests/x"⟩
        "nts_tracklists/m").map
        (fun p => (p.1.runningTotal, p.1.checkpoint,
          getFile p.1.files (outFilePath "nts_tracklists/m" "x"), p.2)) =
      some (c7St.runningTotal + (tracksOfFps [fingerprint ⟨"A", "T"⟩]).length,
        insertName c7St.checkpoint "x",
        some (some (saveTracklist c7St.files "x" (tracksOfFps [fingerprint ⟨"A", "T"⟩])
          "nts_tracklists/m")),
        [] ++ [tracklistUrlOf baseUrl "/guests/x"]) :=
  processShow_running_total (fun _ => .ok []) c7NetTl 1 (fun _ => true) c7St
    ⟨"x", "/guests/x"⟩ "nts_tracklists/m" [syntheticEpisode baseUrl "/guests/x"] []
    [fingerprint ⟨"A", "T"⟩] [tracklistUrlOf baseUrl "/guests/x"] rfl rfl rfl

/-- Counterexample to C7 as stated: at the same concrete instance the
running total rises by 1, but the merged, deduplicated set written to the
output file has 2 tracks — the increment is not the final count written
to the file. -/
theorem processShow_running_total_counterexample :
    (processShowE (fun _ => .ok []) c7NetTl 1 (fun _ => true) c7St ⟨"x", "/guests/x"⟩
        "nts_tracklists/m").map
        (fun p => (p.1.runningTotal,
          (getFile p.1.files (outFilePath "nts_tracklists/m" "x")).map
            (Option.map List.length))) =
      some (1, some (some 2)) ∧ (1 : Nat) ≠ 2 := by
  constructor
  · decide
  · decide

/-! ## Claim C8: the output path and name sanitization -/

theorem mem_collapseWsAux {l : List Char} {b : Bool} {c : Char}
    (h : c ∈ collapseWsAux b l) : c = '_' ∨ (c ∈ l ∧ jsWs c = false) := by
  induction l generalizing b with
  | nil => simp [collapseWsAux] at h
  | cons d l ih =>
    rw [collapseWsAux] at h
    by_cases hd : jsWs d = true
    · rw [if_pos hd] at h
      rcases List.mem_append.1 h with h1 | h2
      · left
        cases b with
        | true => simp at h1
        | false => simpa using h1
      · rcases ih h2 with h3 | ⟨h3, h4⟩
        · exact Or.inl h3
        · exact Or.inr ⟨List.mem_cons_of_mem _ h3, h4⟩
    · rw [if_neg hd] at h
      rcases List.mem_cons.1 h with rfl | h2
      · right
        exact ⟨List.mem_cons_self _ _, by simpa using hd⟩
      · rcases ih h2 with h3 | ⟨h3, h4⟩
        · exact Or.inl h3
        · exact Or.inr ⟨List.mem_cons_of_mem _ h3, h4⟩

/-- `toLowerCase` output never contains an ASCII uppercase letter. -/
theorem jsToLower_not_upper (e : Char) :
    ¬(65 ≤ (jsToLower e).toNat ∧ (jsToLower e).toNat ≤ 90) := by
  simp only [jsToLower, Char.toLower]
  split
  · next h =>
    have hv : (e.toNat + 32).isValidChar := Or.inl (by omega)
    have hn : (Char.ofNat (e.toNat + 32)).toNat = e.toNat + 32 := by
      rw [Char.ofNat, dif_pos hv]
      rfl
    rw [hn]
    omega
  · next h =>
    intro hc
    exact h ⟨hc.1, hc.2⟩

/-- C8: a show processed inside mixtape folder `{alias}` writes to
`nts_tracklists/{alias}/{sanitize name}_tracklist.json`, where the
sanitized name is fully lowercased (no ASCII uppercase survives), each
run of whitespace has become a single underscore (no whitespace
survives), and every `/` has become an underscore (no slash survives);
two concrete names demonstrate the run collapsing. -/
theorem output_path_sanitization :
    (∀ al name, outFilePath (pathJoin outputRoot al) name =
      "nts_tracklists" ++ "/" ++ al ++ "/" ++ sanitize name ++ "_tracklist.json") ∧
    (∀ (name : String), ∀ c ∈ (sanitize name).data,
      jsWs c = false ∧ c ≠ '/' ∧ ¬(65 ≤ c.toNat ∧ c.toNat ≤ 90)) ∧
    sanitize "My Show/Mix  A" = "my_show_mix_a" ∧
    sanitize "Floating Points" = "floating_points" := by
  refine ⟨?_, ?_, by decide, by decide⟩
  · intro al name
    simp [outFilePath, pathJoin, outFileName, outputRoot, String.append_assoc]
  · intro name c hc
    obtain ⟨d, hd, rfl⟩ := List.mem_map.1 hc
    rcases mem_collapseWsAux hd with rfl | ⟨hdl, hdw⟩
    · refine ⟨by decide, by decide, by decide⟩
    · obtain ⟨e, he, rfl⟩ := List.mem_map.1 hdl
      by_cases hslash : jsToLower e = '/'
      · rw [if_pos hslash]
        exact ⟨by decide, by decide, by decide⟩
      · rw [if_neg hslash]
        exact ⟨hdw, hslash, jsToLower_not_upper e⟩

/-- Witness for C8: the path formula and the character properties at the
concrete name `My Show`. -/
theorem output_path_sanitization_witness :
    outFilePath (pathJoin outputRoot "ma") "My Show" =
      "nts_tracklists" ++ "/" ++ "ma" ++ "/" ++ sanitize "My Show" ++ "_tracklist.json" ∧
    (jsWs 'm' = false ∧ 'm' ≠ '/' ∧ ¬(65 ≤ 'm'.toNat ∧ 'm'.toNat ≤ 90)) :=
  ⟨output_path_sanitization.1 "ma" "My Show",
   output_path_sanitization.2.1 "My Show" 'm' (by decide)⟩

end Tracklists
